import Mathlib

/-!
Verification of src/day-one-to-markdown.py against its specification.

The script converts a Day One JSON export archive into per-entry Markdown
directories.  This file gives a shallow embedding of the logic of the
script: JSON values are an inductive type, Python dicts are insertion
ordered association lists, the per-entry pipeline (text extraction,
attachment staging and placeholder substitution, metadata reshaping,
output directory naming) is a family of pure functions, and Python
exceptions that escape the per-entry code are modelled by Option,
with none standing for an uncaught exception that aborts the run.
Filesystem effects (shutil.copy, os.makedirs) are modelled by the data
the script passes to them: copies become explicit copy actions and the
set of already created directories is threaded through the run.
-/

namespace DayOne

/-- JSON values as produced by json.load.  Objects keep their key order,
matching the insertion order of Python dicts. -/
inductive JVal where
  | str : String → JVal
  | num : Int → JVal
  | bool : Bool → JVal
  | null : JVal
  | arr : List JVal → JVal
  | obj : List (String × JVal) → JVal

/-- Python d[k] read access (first matching key), none when the key is
absent, in which case the script would see a KeyError. -/
def dlookup {α : Type} : List (String × α) → String → Option α
  | [], _ => none
  | p :: d, k => if p.1 = k then some p.2 else dlookup d k

/-- Whether a key occurs in the dict. -/
def hasKey {α : Type} : List (String × α) → String → Bool
  | [], _ => false
  | p :: d, k => if p.1 = k then true else hasKey d k

/-- Replace the value stored under every occurrence of a key. -/
def replaceKey {α : Type} : List (String × α) → String → α → List (String × α)
  | [], _, _ => []
  | p :: d, k, v => if p.1 = k then (k, v) :: replaceKey d k v else p :: replaceKey d k v

/-- Python d[k] = v: overwrite in place when the key exists, otherwise
append at the end, as Python dicts do. -/
def dset {α : Type} (d : List (String × α)) (k : String) (v : α) : List (String × α) :=
  if hasKey d k then replaceKey d k v else d ++ [(k, v)]

/-- Python del d[k]; deleting keeps the order of the remaining keys. -/
def ddel {α : Type} : List (String × α) → String → List (String × α)
  | [], _ => []
  | p :: d, k => if p.1 = k then ddel d k else p :: ddel d k

theorem dlookup_replaceKey_self {α : Type} (d : List (String × α)) (k : String) (v : α)
    (h : hasKey d k = true) : dlookup (replaceKey d k v) k = some v := by
  induction d with
  | nil => simp [hasKey] at h
  | cons p d ih =>
    by_cases hp : p.1 = k
    · simp [replaceKey, dlookup, hp]
    · simp only [hasKey, if_neg hp] at h
      simp [replaceKey, dlookup, hp, ih h]

theorem dlookup_replaceKey_ne {α : Type} (d : List (String × α)) (k k' : String) (v : α)
    (h : k' ≠ k) : dlookup (replaceKey d k v) k' = dlookup d k' := by
  induction d with
  | nil => rfl
  | cons p d ih =>
    by_cases hp : p.1 = k
    · simp [replaceKey, dlookup, hp, Ne.symm h, ih]
    · by_cases hp' : p.1 = k'
      · simp [replaceKey, dlookup, hp, hp', h]
      · simp [replaceKey, dlookup, hp, hp', ih]

theorem dlookup_append {α : Type} (d d' : List (String × α)) (k : String) :
    dlookup (d ++ d') k = ((dlookup d k).rec (dlookup d' k) (fun v => some v)) := by
  induction d with
  | nil => simp [dlookup]
  | cons p d ih =>
    by_cases hp : p.1 = k
    · simp [dlookup, hp]
    · simp [dlookup, hp, ih]

theorem hasKey_false_dlookup {α : Type} (d : List (String × α)) (k : String)
    (h : hasKey d k = false) : dlookup d k = none := by
  induction d with
  | nil => rfl
  | cons p d ih =>
    by_cases hp : p.1 = k
    · simp [hasKey, hp] at h
    · simp only [hasKey, if_neg hp] at h
      simp [dlookup, hp, ih h]

theorem dlookup_dset_self {α : Type} (d : List (String × α)) (k : String) (v : α) :
    dlookup (dset d k v) k = some v := by
  unfold dset
  by_cases h : hasKey d k
  · simp [if_pos h, dlookup_replaceKey_self d k v h]
  · simp only [Bool.not_eq_true] at h
    simp [if_neg, h, dlookup_append, hasKey_false_dlookup d k h, dlookup]

theorem dlookup_dset_ne {α : Type} (d : List (String × α)) (k k' : String) (v : α)
    (h : k' ≠ k) : dlookup (dset d k v) k' = dlookup d k' := by
  unfold dset
  by_cases hk : hasKey d k
  · simp [if_pos hk, dlookup_replaceKey_ne d k k' v h]
  · simp only [Bool.not_eq_true] at hk
    simp [hk, dlookup_append, dlookup, h]
    cases dlookup d k' <;> simp [Ne.symm h]

theorem dlookup_ddel {α : Type} (d : List (String × α)) (k k' : String) :
    dlookup (ddel d k) k' = if k' = k then none else dlookup d k' := by
  induction d with
  | nil => simp [ddel, dlookup]
  | cons p d ih =>
    by_cases hp : p.1 = k
    · by_cases hk : k' = k
      · subst hk
        simp [ddel, hp, ih]
      · have hkk : ¬ k = k' := fun e => hk e.symm
        simp [ddel, dlookup, hp, hkk, ih, hk]
    · by_cases hp' : p.1 = k'
      · by_cases hk : k' = k
        · exact absurd (hp'.trans hk) hp
        · simp [ddel, dlookup, hp, hp', hk]
      · simp [ddel, dlookup, hp, hp', ih]

theorem dlookup_nonempty {α : Type} (d : List (String × α)) (k : String) (v : α)
    (h : dlookup d k = some v) : d ≠ [] := by
  intro he
  subst he
  simp [dlookup] at h

/-! ## Attachments (classes Photo and PdfAttachment, lines 30-69)

Both classes keep a source directory and the raw record dict.  The record
fields the script reads are identifier, md5 and type; md5 and type may be
absent.  The model requires the fields it stores to be JSON strings; a
record whose identifier is absent makes the dict comprehension raise
KeyError, modelled as none. -/

structure Attachment where
  directory : String
  identifier : String
  md5 : Option String
  ty : Option String

/-- Property ext (lines 43-48 and 64-69): a dot plus the declared type,
or the default (".jpeg" for photos, ".pdf" for PDFs) when type is absent.
The default is passed in including its dot. -/
def Attachment.ext (a : Attachment) (dflt : String) : String :=
  match a.ty with
  | some t => "." ++ t
  | none => dflt

/-- Read an optional string field: absent is fine, a non string value is
not modelled (the script would build a basename by string formatting). -/
def asStr : Option JVal → Option (Option String)
  | none => some none
  | some (JVal.str s) => some (some s)
  | some _ => none

/-- One record of the photos or pdfAttachments list, as consumed by the
dict comprehensions at lines 130-135 and 163-168.  data["identifier"]
raises KeyError when absent. -/
def parseAttach (dir : String) (v : JVal) : Option Attachment :=
  match v with
  | JVal.obj fs =>
    match dlookup fs "identifier" with
    | some (JVal.str i) =>
      match asStr (dlookup fs "md5") with
      | some m5 =>
        match asStr (dlookup fs "type") with
        | some t => some ⟨dir, i, m5, t⟩
        | none => none
      | none => none
    | _ => none
  | _ => none

/-- The whole attachment list, in order; the comprehension stops at the
first bad record with an uncaught exception. -/
def parseAttachList (dir : String) : List JVal → Option (List Attachment)
  | [] => some []
  | v :: vs =>
    match parseAttach dir v with
    | none => none
    | some a => (parseAttachList dir vs).map (fun as => a :: as)

/-- The identifier keyed dict built by the comprehension: successive
d[identifier] = record assignments into an empty dict. -/
def buildDict (rs : List Attachment) : List (String × Attachment) :=
  rs.foldl (fun d r => dset d r.identifier r) []

/-- One shutil.copy call (lines 143-146 and 176-179): source directory,
destination basename and destination path.  The source path is
srcDir ++ "/" ++ basename.  Whether the copy succeeds depends on the
filesystem; a FileNotFoundError only logs (copy_failure) and is not part
of the data model. -/
structure CopyAction where
  srcDir : String
  basename : String
  dst : String

structure LoopOut where
  dict : List (String × Attachment)
  copies : List CopyAction
  logs : List String

/-- The md5 stubbing and copy loop (lines 137-152 for photos, 170-185 for
PDFs).  A record without md5 is logged, gets the sentinel checksum and is
skipped by continue; a record with md5 produces one copy action. -/
def attachLoop (dflt errLog postDir : String) :
    List (String × Attachment) → LoopOut
  | [] => ⟨[], [], []⟩
  | (k, a) :: rest =>
    let r := attachLoop dflt errLog postDir rest
    match a.md5 with
    | none => ⟨(k, { a with md5 := some "stubbed_basename" }) :: r.dict, r.copies, errLog :: r.logs⟩
    | some m =>
      let b := m ++ a.ext dflt
      ⟨(k, a) :: r.dict, ⟨a.directory, b, postDir ++ "/" ++ b⟩ :: r.copies, r.logs⟩

/-! ## The regular expression substitutions (lines 154-159 and 187-198)

re.sub scans left to right without overlap; the pattern is a literal
token followed by a greedy nonempty run of [0-9a-zA-Z].  The scanner
below is structurally recursive on the text: after a match it skips the
consumed characters one by one through the first argument. -/

/-- [0-9a-zA-Z]: ASCII letters and digits. -/
def isAlnum (c : Char) : Bool := c.isAlpha || c.isDigit

/-- Match a literal token at the front of the text. -/
def stripLit : List Char → List Char → Option (List Char)
  | [], s => some s
  | _ :: _, [] => none
  | p :: ps, c :: cs => if c = p then stripLit ps cs else none

/-- Greedy maximal run of alphanumeric characters. -/
def takeAlnum : List Char → List Char × List Char
  | [] => ([], [])
  | c :: cs =>
    if isAlnum c then
      let r := takeAlnum cs
      (c :: r.1, r.2)
    else ([], c :: cs)

/-- Worker for re.sub: the callback returns the replacement and the log
lines it prints, or none for an uncaught exception inside the callback.
The Nat argument counts characters of an already consumed match still to
be skipped. -/
def go (tok : List Char) (f : List Char → Option (List Char × List String)) :
    Nat → List Char → Option (List Char × List String)
  | 0, [] => some ([], [])
  | 0, c :: cs =>
    match stripLit tok (c :: cs) with
    | none => (go tok f 0 cs).map (fun p => (c :: p.1, p.2))
    | some r =>
      let i := (takeAlnum r).1
      if i.isEmpty then (go tok f 0 cs).map (fun p => (c :: p.1, p.2))
      else
        match f i with
        | none => none
        | some (rep, lg) =>
          (go tok f (tok.length + i.length - 1) cs).map (fun p => (rep ++ p.1, lg ++ p.2))
  | _ + 1, [] => some ([], [])
  | skip + 1, _ :: cs => go tok f skip cs

/-- re.sub(tok ++ "([0-9a-zA-Z]+)", f, s) over the characters of s. -/
def reSub (tok : List Char) (f : List Char → Option (List Char × List String))
    (s : List Char) : Option (List Char × List String) :=
  go tok f 0 s

/-- The photo placeholder literal (line 158). -/
def photoTok : List Char := "dayone-moment://".data

/-- The PDF placeholder literal (line 195). -/
def pdfTok : List Char := "dayone-moment:/pdfAttachment/".data

/-- photo_replacement (lines 154-155): unguarded dict lookup followed by
basename; a missing identifier or missing md5 raises (none). -/
def photoCallback (d : List (String × Attachment)) (i : List Char) :
    Option (List Char × List String) :=
  match dlookup d (String.mk i) with
  | none => none
  | some a =>
    match a.md5 with
    | none => none
    | some m => some ((m ++ a.ext ".jpeg").data, [])

/-- pdf_replacement (lines 187-192): a missing identifier is caught and
yields the sentinel text plus a log line; a found record with missing md5
would still raise inside basename. -/
def pdfCallback (d : List (String × Attachment)) (i : List Char) :
    Option (List Char × List String) :=
  match dlookup d (String.mk i) with
  | none =>
    some ("missing_pdf".data, ["[ERROR] missing pdf (pdf identifier: " ++ String.mk i ++ ")"])
  | some a =>
    match a.md5 with
    | none => none
    | some m => some ((m ++ a.ext ".pdf").data, [])

/-! ## Dates and directory names (lines 115-120) -/

/-- Exactly n decimal digits, accumulating their value. -/
def parseNDigits : Nat → Nat → List Char → Option (Nat × List Char)
  | 0, acc, cs => some (acc, cs)
  | _ + 1, _, [] => none
  | n + 1, acc, c :: cs =>
    if c.isDigit then parseNDigits n (acc * 10 + (c.toNat - 48)) cs else none

/-- Modelled: dateutil.parser.parse restricted to the ISO-8601 strings a
Day One export holds, YYYY-MM-DD optionally followed by a time separated
by T or a space.  Other inputs are treated as a parse failure, which in
the script is an uncaught exception. -/
def parseCreationDate (s : String) : Option (Nat × Nat × Nat) :=
  match parseNDigits 4 0 s.data with
  | some (y, '-' :: r1) =>
    match parseNDigits 2 0 r1 with
    | some (m, '-' :: r2) =>
      match parseNDigits 2 0 r2 with
      | some (d, r3) =>
        let sep : Bool := match r3 with
          | [] => true
          | 'T' :: _ => true
          | ' ' :: _ => true
          | _ => false
        if sep && (1 ≤ m && m ≤ 12) && (1 ≤ d && d ≤ 31) then some (y, m, d) else none
      | _ => none
    | _ => none
  | _ => none

def pad2 (n : Nat) : String := if n < 10 then "0" ++ toString n else toString n

def pad4 (n : Nat) : String :=
  if n < 10 then "000" ++ toString n
  else if n < 100 then "00" ++ toString n
  else if n < 1000 then "0" ++ toString n
  else toString n

/-- strftime("%Y-%m-%d") on the parsed date. -/
def fmtYMD (y m d : Nat) : String := pad4 y ++ "-" ++ pad2 m ++ "-" ++ pad2 d

/-- Python str.lower on the ASCII uuids of Day One. -/
def strLower (s : String) : String := String.mk (s.data.map Char.toLower)

/-- Lines 114-118: the output directory for an entry, plus the uuid used
by the later log messages.  KeyError on creationDate or uuid, a non
string value, or a date that does not parse aborts the run. -/
def entryHead (dest : String) (post : List (String × JVal)) : Option (String × String) :=
  match dlookup post "creationDate" with
  | some (JVal.str cd) =>
    match parseCreationDate cd with
    | some (y, m, d) =>
      match dlookup post "uuid" with
      | some (JVal.str u) =>
        some (dest ++ "/" ++ (fmtYMD y m d ++ "-" ++ strLower u), u)
      | _ => none
    | none => none
  | _ => none

/-! ## Per entry stages -/

/-- Lines 128-159: build the photo dict, stub and copy, substitute.
Returns the rewritten body, the attempted copies and the log lines, or
none for an uncaught exception (bad record, or KeyError inside
photo_replacement). -/
def photoStage (tmpDir postDir u : String) (post : List (String × JVal))
    (content : List Char) : Option (List Char × List CopyAction × List String) :=
  match dlookup post "photos" with
  | none => some (content, [], [])
  | some (JVal.arr items) =>
    match parseAttachList (tmpDir ++ "/photos") items with
    | none => none
    | some recs =>
      let r := attachLoop ".jpeg" ("[ERROR] photo without md5, etc. (" ++ u ++ ")") postDir
        (buildDict recs)
      match reSub photoTok (photoCallback r.dict) content with
      | none => none
      | some (c2, lgs) => some (c2, r.copies, r.logs ++ lgs)
  | some _ => none

/-- Lines 161-198: the same for pdfAttachments, with the guarded
pdf_replacement callback. -/
def pdfStage (tmpDir postDir u : String) (post : List (String × JVal))
    (content : List Char) : Option (List Char × List CopyAction × List String) :=
  match dlookup post "pdfAttachments" with
  | none => some (content, [], [])
  | some (JVal.arr items) =>
    match parseAttachList (tmpDir ++ "/pdfs") items with
    | none => none
    | some recs =>
      let r := attachLoop ".pdf" ("[ERROR] pdf without md5, etc. (" ++ u ++ ")") postDir
        (buildDict recs)
      match reSub pdfTok (pdfCallback r.dict) content with
      | none => none
      | some (c2, lgs) => some (c2, r.copies, r.logs ++ lgs)
  | some _ => none

/-- The metadata keys deleted at lines 203-205, in loop order. -/
def delKeys : List String := ["text", "richText", "photos", "creationDate", "pdfAttachments"]

/-- Lines 200-210: shallow copy of the entry, date set from creationDate
(KeyError when absent), the extraneous keys deleted, then the location
title enrichment.  A location value that is not an object would raise an
uncaught TypeError when subscripted. -/
def buildMetadata (post : List (String × JVal)) : Option (List (String × JVal)) :=
  match dlookup post "creationDate" with
  | none => none
  | some cd =>
    let m2 := delKeys.foldl (fun m k => ddel m k) (dset post "date" cd)
    match dlookup m2 "location" with
    | none => some m2
    | some (JVal.obj loc) =>
      match dlookup loc "placeName" with
      | some pn => some (dset m2 "location" (JVal.obj (dset loc "title" pn)))
      | none => some m2
    | some _ => none

/-- Everything the script writes or attempts for one entry. -/
structure EntryResult where
  dir : String
  copies : List CopyAction
  content : String
  metadata : List (String × JVal)
  logs : List String

/-- Lines 122-218 after the makedirs call: body extraction (empty string
plus a log when the text field is absent), both attachment stages, the
metadata reshaping and the index.md payload.  index.md holds the front
matter serialization of metadata followed by content and a newline;
the serialization is a fixed function of the pair kept here. -/
def entryCore (tmpDir postDir u : String) (post : List (String × JVal))
    (content0 : String) (logsT : List String) : Option EntryResult :=
  match photoStage tmpDir postDir u post content0.data with
  | none => none
  | some (c1, copies1, logs1) =>
    match pdfStage tmpDir postDir u post c1 with
    | none => none
    | some (c2, copies2, logs2) =>
      match buildMetadata post with
      | none => none
      | some md =>
        some ⟨postDir, copies1 ++ copies2, String.mk c2, md, logsT ++ (logs1 ++ logs2)⟩

def entryRest (tmpDir postDir u : String) (post : List (String × JVal)) :
    Option EntryResult :=
  match dlookup post "text" with
  | some (JVal.str t) => entryCore tmpDir postDir u post t []
  | none => entryCore tmpDir postDir u post "" ["[ERROR] post without text (" ++ u ++ ")"]
  | some _ => none

/-- How a run ends early: an uncaught exception, or os.makedirs failing
because the output directory already exists (line 120). -/
inductive Fatal where
  | crash
  | dirExists
deriving DecidableEq

/-- The loop over data["entries"] (lines 114-218).  ex is the set of
directories that already exist under the destination; a collision stops
the whole run, keeping the entries already produced. -/
def runEntries (tmpDir dest : String) (ex : List String) :
    List (List (String × JVal)) → List EntryResult × Option Fatal
  | [] => ([], none)
  | post :: rest =>
    match entryHead dest post with
    | none => ([], some Fatal.crash)
    | some (dir, u) =>
      if dir ∈ ex then ([], some Fatal.dirExists)
      else
        match entryRest tmpDir dir u post with
        | none => ([], some Fatal.crash)
        | some er =>
          let r := runEntries tmpDir dest (dir :: ex) rest
          (er :: r.1, r.2)

/-- The directories existing after a list of produced entries. -/
def stateAfter (ex : List String) (os : List EntryResult) : List String :=
  os.foldl (fun e o => o.dir :: e) ex

/-- Lines 99-107: choice of document filename and destination root from
the --journal option (None when omitted).  options.journal != "" is true
for None, and None + ".json" then raises TypeError, modelled as none.
os.path.abspath is the identity here (paths are kept as given). -/
def resolveJournal (dest : String) (journal : Option String) :
    Option (String × String) :=
  if journal ≠ some "" then
    match journal with
    | some name => some (name ++ ".json", dest ++ "/" ++ name)
    | none => none
  else
    some ("Journal.json", dest)

/-! ## Lemmas about the substitution scanner -/

theorem stripLit_self (tok rest : List Char) : stripLit tok (tok ++ rest) = some rest := by
  induction tok with
  | nil => rfl
  | cons c tok ih => simp [stripLit, ih]

theorem stripLit_ne_head (t0 : Char) (tl cs : List Char) (c : Char) (h : c ≠ t0) :
    stripLit (t0 :: tl) (c :: cs) = none := by
  simp [stripLit, h]

/-- Whether the text starts with a non alphanumeric character (or ends). -/
def headNA : List Char → Bool
  | [] => true
  | c :: _ => !isAlnum c

theorem takeAlnum_stop (s : List Char) (h : headNA s = true) : takeAlnum s = ([], s) := by
  cases s with
  | nil => rfl
  | cons c cs =>
    simp only [headNA, Bool.not_eq_true'] at h
    simp [takeAlnum, h]

theorem takeAlnum_run (i rest : List Char) (hi : i.all isAlnum = true)
    (hr : headNA rest = true) : takeAlnum (i ++ rest) = (i, rest) := by
  induction i with
  | nil => simpa using takeAlnum_stop rest hr
  | cons c i ih =>
    simp only [List.all_cons, Bool.and_eq_true] at hi
    simp [takeAlnum, hi.1, ih hi.2]

theorem go_skip (tok : List Char) (f : List Char → Option (List Char × List String))
    (a s : List Char) : go tok f a.length (a ++ s) = go tok f 0 s := by
  induction a with
  | nil => rfl
  | cons c a ih => simpa [go] using ih

theorem reSub_nil (tok : List Char) (f : List Char → Option (List Char × List String)) :
    reSub tok f [] = some ([], []) := rfl

theorem reSub_cons_none (tok : List Char) (f : List Char → Option (List Char × List String))
    (c : Char) (cs : List Char) (h : stripLit tok (c :: cs) = none) :
    reSub tok f (c :: cs) = (reSub tok f cs).map (fun p => (c :: p.1, p.2)) := by
  simp [reSub, go, h]

/-- Scanning a clean segment (no occurrence of the head character of the
token) copies it verbatim. -/
theorem reSub_clean (t0 : Char) (tl : List Char)
    (f : List Char → Option (List Char × List String)) (a s : List Char)
    (ha : ∀ x ∈ a, x ≠ t0) :
    reSub (t0 :: tl) f (a ++ s) =
      (reSub (t0 :: tl) f s).map (fun p => (a ++ p.1, p.2)) := by
  induction a with
  | nil =>
    cases h : reSub (t0 :: tl) f s <;> simp [h]
  | cons c a ih =>
    have hc : c ≠ t0 := ha c (List.mem_cons_self c a)
    have ha' : ∀ x ∈ a, x ≠ t0 := fun x hx => ha x (List.mem_cons_of_mem c hx)
    rw [List.cons_append, reSub_cons_none _ _ _ _ (stripLit_ne_head t0 tl _ c hc), ih ha']
    cases reSub (t0 :: tl) f s <;> simp

/-- Scanning at a token: the identifier is looked up via the callback and
the scan resumes right after it. -/
theorem reSub_tok (t0 : Char) (tl : List Char)
    (f : List Char → Option (List Char × List String)) (i rest : List Char)
    (hne : i ≠ []) (hal : i.all isAlnum = true) (hr : headNA rest = true)
    (rep : List Char) (lg : List String) (hf : f i = some (rep, lg)) :
    reSub (t0 :: tl) f (t0 :: (tl ++ (i ++ rest))) =
      (reSub (t0 :: tl) f rest).map (fun p => (rep ++ p.1, lg ++ p.2)) := by
  have h1 : stripLit (t0 :: tl) (t0 :: (tl ++ (i ++ rest))) = some (i ++ rest) :=
    stripLit_self (t0 :: tl) (i ++ rest)
  have h2 : takeAlnum (i ++ rest) = (i, rest) := takeAlnum_run i rest hal hr
  have hie : i.isEmpty = false := by
    cases i with
    | nil => exact absurd rfl hne
    | cons c i => rfl
  show go (t0 :: tl) f 0 (t0 :: (tl ++ (i ++ rest))) = _
  simp only [go, h1, h2, hie, Bool.false_eq_true, if_false, hf]
  have hskip : (t0 :: tl).length + i.length - 1 = (tl ++ i).length := by
    simp only [List.length_cons, List.length_append]
    omega
  rw [hskip, show tl ++ (i ++ rest) = (tl ++ i) ++ rest from (List.append_assoc tl i rest).symm,
    go_skip]
  rfl

/-- A callback that never raises makes the substitution total. -/
theorem go_total (tok : List Char) (f : List Char → Option (List Char × List String))
    (hf : ∀ i, (f i).isSome = true) :
    ∀ (s : List Char) (skip : Nat), (go tok f skip s).isSome = true := by
  intro s
  induction s with
  | nil => intro skip; cases skip <;> simp [go]
  | cons c cs ih =>
    intro skip
    cases skip with
    | succ n => simpa [go] using ih n
    | zero =>
      simp only [go]
      cases h : stripLit tok (c :: cs) with
      | none => simpa using ih 0
      | some r =>
        simp only []
        by_cases hi : ((takeAlnum r).1).isEmpty
        · simpa [hi] using ih 0
        · have := hf (takeAlnum r).1
          cases hfi : f (takeAlnum r).1 with
          | none => rw [hfi] at this; simp at this
          | some v =>
            simp only [hi, if_neg, Bool.false_eq_true, not_false_eq_true, hfi]
            cases v with
            | mk rep lg => simpa using ih (tok.length + (takeAlnum r).1.length - 1)

theorem reSub_total (tok : List Char) (f : List Char → Option (List Char × List String))
    (hf : ∀ i, (f i).isSome = true) (s : List Char) : (reSub tok f s).isSome = true :=
  go_total tok f hf s 0

/-! ## Bodies built from placeholder occurrences

A body text is described as a first segment followed by a list of pairs
(identifier, following segment).  The segments contain no occurrence of
the head character of the token, every identifier is a nonempty
alphanumeric run, and each identifier is followed by a non alphanumeric
character (or the end of the text), so the occurrences are exactly the
matches of the pattern. -/

def assemble (tok : List Char) : List Char → List (List Char × List Char) → List Char
  | s0, [] => s0
  | s0, (i, s) :: rest => s0 ++ (tok ++ (i ++ assemble tok s rest))

/-- No character of the segment equals the head character of the token. -/
def segClean (t0 : Char) (s : List Char) : Bool :=
  s.all (fun c => !decide (c = t0))

/-- A placeholder identifier: nonempty and alphanumeric. -/
def idOk (i : List Char) : Bool := !i.isEmpty && i.all isAlnum

/-- The text right after an identifier must not extend the match. -/
def sepOk : List Char → List (List Char × List Char) → Bool
  | [], rest => rest.isEmpty
  | c :: _, _ => !isAlnum c

def tailOk (t0 : Char) : List (List Char × List Char) → Bool
  | [] => true
  | (i, s) :: rest => idOk i && segClean t0 s && sepOk s rest && tailOk t0 rest

/-- The substituted body: each identifier replaced through the callback. -/
def substOut (f : List Char → Option (List Char × List String)) :
    List Char → List (List Char × List Char) → List Char
  | s0, [] => s0
  | s0, (i, s) :: rest =>
    s0 ++ ((match f i with | some p => p.1 | none => []) ++ substOut f s rest)

/-- The log lines printed by the callback, in scan order. -/
def substLogs (f : List Char → Option (List Char × List String)) :
    List (List Char × List Char) → List String
  | [] => []
  | (i, _) :: rest => (match f i with | some p => p.2 | none => []) ++ substLogs f rest

theorem segClean_forall (t0 : Char) (s : List Char) (h : segClean t0 s = true) :
    ∀ x ∈ s, x ≠ t0 := by
  intro x hx
  have := List.all_eq_true.mp h x hx
  simpa using this

theorem idOk_ne (i : List Char) (h : idOk i = true) : i ≠ [] := by
  intro he
  subst he
  simp [idOk] at h

theorem idOk_al (i : List Char) (h : idOk i = true) : i.all isAlnum = true := by
  simp only [idOk, Bool.and_eq_true] at h
  exact h.2

theorem headNA_assemble (tok s : List Char) (rest : List (List Char × List Char))
    (h : sepOk s rest = true) : headNA (assemble tok s rest) = true := by
  cases s with
  | nil =>
    cases rest with
    | nil => rfl
    | cons q qs => simp [sepOk] at h
  | cons c s =>
    cases rest with
    | nil => simpa [assemble, headNA, sepOk] using h
    | cons q qs =>
      obtain ⟨i', s'⟩ := q
      simp only [sepOk] at h
      simp [assemble, headNA, h]

/-- The central substitution lemma: on a body in occurrence form, with a
callback defined on every identifier, re.sub replaces each occurrence by
the callback output and concatenates the callback logs in order. -/
theorem reSub_assemble (t0 : Char) (tl : List Char)
    (f : List Char → Option (List Char × List String))
    (ps : List (List Char × List Char)) (s0 : List Char)
    (h0 : segClean t0 s0 = true) (ht : tailOk t0 ps = true)
    (hf : ∀ p ∈ ps, (f p.1).isSome = true) :
    reSub (t0 :: tl) f (assemble (t0 :: tl) s0 ps) =
      some (substOut f s0 ps, substLogs f ps) := by
  induction ps generalizing s0 with
  | nil =>
    have h := reSub_clean t0 tl f s0 [] (segClean_forall t0 s0 h0)
    rw [List.append_nil] at h
    simpa [assemble, substOut, substLogs, reSub_nil] using h
  | cons p rest ih =>
    obtain ⟨i, s⟩ := p
    simp only [tailOk, Bool.and_eq_true] at ht
    obtain ⟨⟨⟨hid, hseg⟩, hsep⟩, htr⟩ := ht
    have hfi : (f i).isSome = true := hf (i, s) (List.mem_cons_self _ _)
    obtain ⟨⟨rep, lg⟩, hfe⟩ := Option.isSome_iff_exists.mp hfi
    have hna : headNA (assemble (t0 :: tl) s rest) = true := headNA_assemble _ s rest hsep
    have hrec : reSub (t0 :: tl) f (assemble (t0 :: tl) s rest) =
        some (substOut f s rest, substLogs f rest) :=
      ih s hseg htr (fun q hq => hf q (List.mem_cons_of_mem _ hq))
    have htok := reSub_tok t0 tl f i (assemble (t0 :: tl) s rest)
      (idOk_ne i hid) (idOk_al i hid) hna rep lg hfe
    have hcl := reSub_clean t0 tl f s0 ((t0 :: tl) ++ (i ++ assemble (t0 :: tl) s rest))
      (segClean_forall t0 s0 h0)
    rw [assemble, hcl, show (t0 :: tl) ++ (i ++ assemble (t0 :: tl) s rest) =
      t0 :: (tl ++ (i ++ assemble (t0 :: tl) s rest)) from rfl, htok, hrec]
    simp [substOut, substLogs, hfe]

theorem dlookup_mem {α : Type} (d : List (String × α)) (k : String) (v : α)
    (h : dlookup d k = some v) : ∃ p, p ∈ d ∧ p.2 = v := by
  induction d with
  | nil => simp [dlookup] at h
  | cons p d ih =>
    by_cases hp : p.1 = k
    · simp only [dlookup, if_pos hp, Option.some.injEq] at h
      exact ⟨p, List.mem_cons_self _ _, h⟩
    · simp only [dlookup, if_neg hp] at h
      obtain ⟨q, hq, he⟩ := ih h
      exact ⟨q, List.mem_cons_of_mem _ hq, he⟩

/-- After the stubbing loop every record has an md5 value, so the guarded
pdf callback never raises. -/
theorem pdfCallback_total (m : List (String × Attachment))
    (hm : m.all (fun p => p.2.md5.isSome) = true) (i : List Char) :
    (pdfCallback m i).isSome = true := by
  unfold pdfCallback
  cases hl : dlookup m (String.mk i) with
  | none => rfl
  | some a =>
    obtain ⟨p, hp, he⟩ := dlookup_mem m _ a hl
    have hs := List.all_eq_true.mp hm p hp
    rw [he] at hs
    cases hmd : a.md5 with
    | none => rw [hmd] at hs; simp at hs
    | some mm => simp [hmd]

/-! ## The replacement the specification claims for photos -/

/-- The body with every occurrence replaced through a plain function. -/
def substAll (g : List Char → List Char) :
    List Char → List (List Char × List Char) → List Char
  | s0, [] => s0
  | s0, (i, s) :: rest => s0 ++ (g i ++ substAll g s rest)

/-- Written from the claim: the destination basename of the matching
photo record, its md5 checksum, a dot and its declared type, or .jpeg
when the type field is absent. -/
def claimedPhotoName (d : List (String × Attachment)) (i : List Char) : List Char :=
  match dlookup d (String.mk i) with
  | some a =>
    match a.md5, a.ty with
    | some m, some t => (m ++ ("." ++ t)).data
    | some m, none => (m ++ ".jpeg").data
    | none, _ => []
  | none => []

/-- Every identifier of the body maps to a photo record with a checksum. -/
def idsBound (d : List (String × Attachment)) (ps : List (List Char × List Char)) : Bool :=
  ps.all (fun p =>
    match dlookup d (String.mk p.1) with
    | some a => a.md5.isSome
    | none => false)

theorem photoCallback_of_bound (d : List (String × Attachment))
    (ps : List (List Char × List Char)) (hb : idsBound d ps = true) :
    ∀ p ∈ ps, photoCallback d p.1 = some (claimedPhotoName d p.1, []) := by
  intro p hp
  have hs := List.all_eq_true.mp hb p hp
  unfold photoCallback claimedPhotoName
  cases hl : dlookup d (String.mk p.1) with
  | none => rw [hl] at hs; simp at hs
  | some a =>
    rw [hl] at hs
    cases hmd : a.md5 with
    | none => simp [hmd] at hs
    | some m =>
      cases hty : a.ty with
      | none => simp [Attachment.ext, hty, hmd]
      | some t => simp [Attachment.ext, hty, hmd]

theorem substOut_pointwise (f : List Char → Option (List Char × List String))
    (g : List Char → List Char) (ps : List (List Char × List Char)) (s0 : List Char)
    (hp : ∀ p ∈ ps, f p.1 = some (g p.1, [])) :
    substOut f s0 ps = substAll g s0 ps := by
  induction ps generalizing s0 with
  | nil => rfl
  | cons p rest ih =>
    obtain ⟨i, s⟩ := p
    rw [substOut, substAll, hp (i, s) (List.mem_cons_self _ _),
      ih s (fun q hq => hp q (List.mem_cons_of_mem _ hq))]

theorem substLogs_pointwise (f : List Char → Option (List Char × List String))
    (g : List Char → List Char) (ps : List (List Char × List Char))
    (hp : ∀ p ∈ ps, f p.1 = some (g p.1, [])) :
    substLogs f ps = [] := by
  induction ps with
  | nil => rfl
  | cons p rest ih =>
    obtain ⟨i, s⟩ := p
    rw [substLogs, hp (i, s) (List.mem_cons_self _ _),
      ih (fun q hq => hp q (List.mem_cons_of_mem _ hq))]
    rfl

/-- Claim C4: for every entry whose body contains well formed photo
placeholder tokens whose alphanumeric identifiers match records of the
photo mapping of that entry, every occurrence of such a placeholder in
the output body is replaced by the destination basename of that photo,
its md5 checksum followed by a dot and its declared type, or by .jpeg
when the type field is absent; the photo callback prints nothing. -/
theorem c4_photo_placeholder_replaced (d : List (String × Attachment))
    (s0 : List Char) (ps : List (List Char × List Char))
    (h0 : segClean 'd' s0 = true) (ht : tailOk 'd' ps = true)
    (hb : idsBound d ps = true) :
    reSub photoTok (photoCallback d) (assemble photoTok s0 ps) =
      some (substAll (claimedPhotoName d) s0 ps, []) := by
  have hpe := photoCallback_of_bound d ps hb
  have h := reSub_assemble 'd' ("ayone-moment://".data) (photoCallback d) ps s0 h0 ht
    (fun p hp => by rw [hpe p hp]; rfl)
  rw [show photoTok = 'd' :: "ayone-moment://".data from rfl, h,
    substOut_pointwise (photoCallback d) (claimedPhotoName d) ps s0 hpe,
    substLogs_pointwise (photoCallback d) (claimedPhotoName d) ps hpe]

/-- Claim C2 (amended): the photo replacement callback is invoked on
every placeholder identifier of the body whether or not it is a key of
the photo mapping; when every identifier of the body is a key of the
mapping (with a checksum present) the unguarded lookup never fails and
the substitution succeeds.  The counterexample theorem shows the failure
on a body with an unmatched identifier. -/
theorem c2_photo_substitution_total_when_bound (d : List (String × Attachment))
    (s0 : List Char) (ps : List (List Char × List Char))
    (h0 : segClean 'd' s0 = true) (ht : tailOk 'd' ps = true)
    (hb : idsBound d ps = true) :
    (reSub photoTok (photoCallback d) (assemble photoTok s0 ps)).isSome = true := by
  have hpe := photoCallback_of_bound d ps hb
  rw [show photoTok = 'd' :: "ayone-moment://".data from rfl,
    reSub_assemble 'd' ("ayone-moment://".data) (photoCallback d) ps s0 h0 ht
      (fun p hp => by rw [hpe p hp]; rfl)]
  rfl

/-- Claim C5: a PDF placeholder whose identifier has no record in the PDF
mapping of the entry is replaced by the literal sentinel text missing_pdf,
an error line naming that identifier is logged, and substitution of the
remaining text still takes place. -/
theorem c5_missing_pdf_sentinel (m : List (String × Attachment))
    (s0 i rest : List Char)
    (hm : m.all (fun p => p.2.md5.isSome) = true)
    (h0 : segClean 'd' s0 = true) (hi : idOk i = true)
    (hmiss : dlookup m (String.mk i) = none) (hr : headNA rest = true) :
    ∃ out logs, reSub pdfTok (pdfCallback m) rest = some (out, logs) ∧
      reSub pdfTok (pdfCallback m) (s0 ++ (pdfTok ++ (i ++ rest))) =
        some (s0 ++ ("missing_pdf".data ++ out),
          ("[ERROR] missing pdf (pdf identifier: " ++ String.mk i ++ ")") :: logs) := by
  have htot := reSub_total pdfTok (pdfCallback m) (pdfCallback_total m hm) rest
  obtain ⟨⟨out, logs⟩, he⟩ := Option.isSome_iff_exists.mp htot
  refine ⟨out, logs, he, ?_⟩
  have hfi : pdfCallback m i = some ("missing_pdf".data,
      ["[ERROR] missing pdf (pdf identifier: " ++ String.mk i ++ ")"]) := by
    unfold pdfCallback
    rw [hmiss]
  rw [show pdfTok = 'd' :: "ayone-moment:/pdfAttachment/".data from rfl] at he ⊢
  rw [reSub_clean 'd' ("ayone-moment:/pdfAttachment/".data) (pdfCallback m) s0 _
    (segClean_forall 'd' s0 h0)]
  rw [show ('d' :: "ayone-moment:/pdfAttachment/".data) ++ (i ++ rest) =
    'd' :: ("ayone-moment:/pdfAttachment/".data ++ (i ++ rest)) from rfl]
  rw [reSub_tok 'd' ("ayone-moment:/pdfAttachment/".data) (pdfCallback m) i rest
    (idOk_ne i hi) (idOk_al i hi) hr _ _ hfi, he]
  rfl

/-! ## Claim C3: attachment records without a checksum -/

/-- What the loop leaves in a record: the sentinel checksum when md5 was
absent, the record unchanged otherwise. -/
def mdStub (a : Attachment) : Attachment :=
  match a.md5 with
  | none => { a with md5 := some "stubbed_basename" }
  | some _ => a

/-- Claim C3 (amended): a record without md5 is logged and receives the
sentinel checksum stubbed_basename, but its copy step is skipped by the
continue statement rather than carried out; records with a checksum are
the only ones copied, every record stays in the mapping for the later
body substitution, and the loop never raises (it is total). -/
theorem c3_missing_md5_amended (dflt errLog postDir : String)
    (d : List (String × Attachment)) :
    (attachLoop dflt errLog postDir d).dict = d.map (fun p => (p.1, mdStub p.2)) ∧
    (attachLoop dflt errLog postDir d).copies = d.filterMap (fun p => p.2.md5.map
      (fun m => ⟨p.2.directory, m ++ p.2.ext dflt, postDir ++ "/" ++ (m ++ p.2.ext dflt)⟩)) ∧
    (attachLoop dflt errLog postDir d).logs =
      (d.filter (fun p => p.2.md5.isNone)).map (fun _ => errLog) := by
  induction d with
  | nil => exact ⟨rfl, rfl, rfl⟩
  | cons p d ih =>
    obtain ⟨k, a⟩ := p
    obtain ⟨hd, hc, hl⟩ := ih
    cases hmd : a.md5 with
    | none =>
      refine ⟨?_, ?_, ?_⟩
      · simp [attachLoop, hmd, hd, mdStub]
      · simp [attachLoop, hmd, hc]
      · simp [attachLoop, hmd, hl]
    | some m =>
      refine ⟨?_, ?_, ?_⟩
      · simp [attachLoop, hmd, hd, mdStub]
      · simp [attachLoop, hmd, hc]
      · simp [attachLoop, hmd, hl]

/-- Claim C3 counterexample: for a concrete photo record without md5 the
loop performs no copy at all (the claim asserts the copy step is still
carried out under the stubbed basename), while the error is logged and
the sentinel checksum is substituted. -/
theorem c3_stub_without_copy_cex :
    (¬ ∃ c, c ∈ (attachLoop ".jpeg" "[ERROR] photo without md5, etc. (U1)" "/d/e"
        [("p1", ⟨"/t/photos", "p1", none, none⟩)]).copies ∧
      c.basename = "stubbed_basename.jpeg") ∧
    (attachLoop ".jpeg" "[ERROR] photo without md5, etc. (U1)" "/d/e"
        [("p1", ⟨"/t/photos", "p1", none, none⟩)]).copies = [] ∧
    (attachLoop ".jpeg" "[ERROR] photo without md5, etc. (U1)" "/d/e"
        [("p1", ⟨"/t/photos", "p1", none, none⟩)]).dict =
      [("p1", ⟨"/t/photos", "p1", some "stubbed_basename", none⟩)] ∧
    (attachLoop ".jpeg" "[ERROR] photo without md5, etc. (U1)" "/d/e"
        [("p1", ⟨"/t/photos", "p1", none, none⟩)]).logs =
      ["[ERROR] photo without md5, etc. (U1)"] := by
  refine ⟨?_, rfl, rfl, rfl⟩
  rintro ⟨c, hc, -⟩
  exact absurd hc (List.not_mem_nil c)

/-! ## Claim C6: the front matter metadata -/

theorem dlookup_foldl_ddel (L : List String) (m : List (String × JVal)) (k : String) :
    dlookup (L.foldl (fun m k => ddel m k) m) k = if k ∈ L then none else dlookup m k := by
  induction L generalizing m with
  | nil => simp
  | cons a L ih =>
    simp only [List.foldl_cons]
    rw [ih]
    by_cases hk : k ∈ L
    · simp [hk]
    · by_cases ha : k = a
      · simp [hk, ha, dlookup_ddel]
      · simp [hk, ha, dlookup_ddel]

/-- The location value, when present, must be a JSON object; the script
would otherwise raise an uncaught TypeError when subscripting it. -/
def locOK (post : List (String × JVal)) : Prop :=
  match dlookup post "location" with
  | none => True
  | some (JVal.obj _) => True
  | some _ => False

/-- Written from the claim of C6: a shallow copy in which exactly the
five keys are removed, with a date key holding the creationDate value
added and every other field passed through unchanged. -/
def claimedMetadataC6 (post : List (String × JVal)) : Option (List (String × JVal)) :=
  match dlookup post "creationDate" with
  | none => none
  | some cd => some (dset (delKeys.foldl (fun m k => ddel m k) post) "date" cd)

def c6post : List (String × JVal) :=
  [("creationDate", JVal.str "2023-05-01T10:00:00Z"),
   ("location", JVal.obj [("placeName", JVal.str "Alexanderplatz")])]

def c6real : List (String × JVal) :=
  [("location", JVal.obj [("placeName", JVal.str "Alexanderplatz"),
     ("title", JVal.str "Alexanderplatz")]),
   ("date", JVal.str "2023-05-01T10:00:00Z")]

def c6claimed : List (String × JVal) :=
  [("location", JVal.obj [("placeName", JVal.str "Alexanderplatz")]),
   ("date", JVal.str "2023-05-01T10:00:00Z")]

/-- Observation separating the two metadata values: whether the location
object carries a title key. -/
def hasTitleInLocation (m : List (String × JVal)) : Bool :=
  match dlookup m "location" with
  | some (JVal.obj loc) => hasKey loc "title"
  | _ => false

/-- Claim C6 counterexample: on an entry with a location carrying a
placeName, the script rewrites the location object (it gains a title
field copied from placeName), so the metadata is not the shallow copy
with only the five keys removed and date added that the claim states. -/
theorem c6_location_changed_cex :
    buildMetadata c6post = some c6real ∧
    claimedMetadataC6 c6post = some c6claimed ∧
    hasTitleInLocation c6real = true ∧
    hasTitleInLocation c6claimed = false ∧
    buildMetadata c6post ≠ claimedMetadataC6 c6post := by
  refine ⟨rfl, rfl, rfl, rfl, ?_⟩
  intro h
  rw [show buildMetadata c6post = some c6real from rfl,
    show claimedMetadataC6 c6post = some c6claimed from rfl] at h
  have hm := Option.some.inj h
  have hb := congrArg hasTitleInLocation hm
  rw [show hasTitleInLocation c6real = true from rfl,
    show hasTitleInLocation c6claimed = false from rfl] at hb
  exact Bool.noConfusion hb

/-- Claim C6 (amended): the front matter metadata is the shallow copy of
the entry with exactly the keys text, richText, photos, pdfAttachments
and creationDate removed and a date key holding the original
creationDate value, and every other field passed through unchanged
except location: when the location object carries a placeName, the
emitted location additionally carries title set to that placeName. -/
theorem c6_metadata_amended (post : List (String × JVal)) (cd : JVal)
    (hcd : dlookup post "creationDate" = some cd) (hloc : locOK post) :
    ∃ m, buildMetadata post = some m ∧
      dlookup m "date" = some cd ∧
      (∀ k ∈ delKeys, dlookup m k = none) ∧
      (∀ k, k ∉ delKeys → k ≠ "date" → k ≠ "location" → dlookup m k = dlookup post k) ∧
      (dlookup post "location" = none → dlookup m "location" = none) ∧
      (∀ loc, dlookup post "location" = some (JVal.obj loc) →
        (∀ pn, dlookup loc "placeName" = some pn →
          dlookup m "location" = some (JVal.obj (dset loc "title" pn))) ∧
        (dlookup loc "placeName" = none → dlookup m "location" = some (JVal.obj loc))) := by
  have hdate : ("date" : String) ∉ delKeys := by decide
  have hlocn : ("location" : String) ∉ delKeys := by decide
  have hdl : ("date" : String) ≠ "location" := by decide
  have hm2loc : dlookup (delKeys.foldl (fun m k => ddel m k) (dset post "date" cd))
      "location" = dlookup post "location" := by
    rw [dlookup_foldl_ddel, if_neg hlocn, dlookup_dset_ne post "date" "location" cd hdl.symm]
  have hm2date : dlookup (delKeys.foldl (fun m k => ddel m k) (dset post "date" cd))
      "date" = some cd := by
    rw [dlookup_foldl_ddel, if_neg hdate, dlookup_dset_self]
  have hm2del : ∀ k ∈ delKeys,
      dlookup (delKeys.foldl (fun m k => ddel m k) (dset post "date" cd)) k = none := by
    intro k hk
    rw [dlookup_foldl_ddel, if_pos hk]
  have hm2fr : ∀ k, k ∉ delKeys → k ≠ "date" →
      dlookup (delKeys.foldl (fun m k => ddel m k) (dset post "date" cd)) k =
        dlookup post k := by
    intro k hk hkd
    rw [dlookup_foldl_ddel, if_neg hk, dlookup_dset_ne post "date" k cd hkd]
  cases hl : dlookup post "location" with
  | none =>
    have hbm : buildMetadata post =
        some (delKeys.foldl (fun m k => ddel m k) (dset post "date" cd)) := by
      simp only [buildMetadata, hcd, hm2loc.trans hl]
    refine ⟨_, hbm, hm2date, hm2del, fun k hk hkd _ => hm2fr k hk hkd, ?_, ?_⟩
    · intro _
      exact hm2loc.trans hl
    · intro loc hc
      exact absurd hc (by simp)
  | some v =>
    cases v with
    | obj loc =>
      cases hpn : dlookup loc "placeName" with
      | none =>
        have hbm : buildMetadata post =
            some (delKeys.foldl (fun m k => ddel m k) (dset post "date" cd)) := by
          simp only [buildMetadata, hcd, hm2loc.trans hl, hpn]
        refine ⟨_, hbm, hm2date, hm2del, fun k hk hkd _ => hm2fr k hk hkd, ?_, ?_⟩
        · intro hc
          exact absurd hc (by simp)
        · intro loc' hc
          have hle : JVal.obj loc = JVal.obj loc' := Option.some.inj hc
          have hle2 : loc = loc' := by injection hle with h2
          subst hle2
          exact ⟨fun pn hp => absurd (hpn.symm.trans hp) (by simp),
            fun _ => hm2loc.trans hl⟩
      | some pn =>
        have hbm : buildMetadata post =
            some (dset (delKeys.foldl (fun m k => ddel m k) (dset post "date" cd))
              "location" (JVal.obj (dset loc "title" pn))) := by
          simp only [buildMetadata, hcd, hm2loc.trans hl, hpn]
        refine ⟨_, hbm, ?_, ?_, ?_, ?_, ?_⟩
        · rw [dlookup_dset_ne _ "location" "date" _ hdl, hm2date]
        · intro k hk
          have hkl : k ≠ "location" := by
            intro he
            rw [he] at hk
            exact hlocn hk
          rw [dlookup_dset_ne _ "location" k _ hkl, hm2del k hk]
        · intro k hk hkd hkl
          rw [dlookup_dset_ne _ "location" k _ hkl, hm2fr k hk hkd]
        · intro hc
          exact absurd hc (by simp)
        · intro loc' hc
          have hle : JVal.obj loc = JVal.obj loc' := Option.some.inj hc
          have hle2 : loc = loc' := by injection hle with h2
          subst hle2
          refine ⟨fun pn' hp => ?_, fun hp => absurd (hpn.symm.trans hp) (by simp)⟩
          have hpe : pn = pn' := Option.some.inj (hpn.symm.trans hp)
          subst hpe
          rw [dlookup_dset_self]
    | str s =>
      exact absurd hloc (by simp [locOK, hl])
    | num n =>
      exact absurd hloc (by simp [locOK, hl])
    | bool b =>
      exact absurd hloc (by simp [locOK, hl])
    | null =>
      exact absurd hloc (by simp [locOK, hl])
    | arr xs =>
      exact absurd hloc (by simp [locOK, hl])

/-! ## Claims C7 and C8: the run loop and missing bodies -/

theorem entryCore_dir (tmpDir postDir u : String) (post : List (String × JVal))
    (c0 : String) (lg0 : List String) (er : EntryResult)
    (h : entryCore tmpDir postDir u post c0 lg0 = some er) : er.dir = postDir := by
  cases hp : photoStage tmpDir postDir u post c0.data with
  | none => simp only [entryCore, hp] at h; exact Option.noConfusion h
  | some x1 =>
    obtain ⟨c1, cp1, lg1⟩ := x1
    simp only [entryCore, hp] at h
    cases hq : pdfStage tmpDir postDir u post c1 with
    | none => rw [hq] at h; exact Option.noConfusion h
    | some x2 =>
      obtain ⟨c2, cp2, lg2⟩ := x2
      rw [hq] at h
      simp only [] at h
      cases hmd : buildMetadata post with
      | none => rw [hmd] at h; exact Option.noConfusion h
      | some md =>
        rw [hmd] at h
        simp only [] at h
        rw [← Option.some.inj h]

theorem entryRest_dir (tmpDir postDir u : String) (post : List (String × JVal))
    (er : EntryResult) (h : entryRest tmpDir postDir u post = some er) :
    er.dir = postDir := by
  cases htx : dlookup post "text" with
  | none =>
    simp only [entryRest, htx] at h
    exact entryCore_dir tmpDir postDir u post _ _ er h
  | some v =>
    cases v with
    | str t =>
      simp only [entryRest, htx] at h
      exact entryCore_dir tmpDir postDir u post _ _ er h
    | num n => simp only [entryRest, htx] at h; exact Option.noConfusion h
    | bool b => simp only [entryRest, htx] at h; exact Option.noConfusion h
    | null => simp only [entryRest, htx] at h; exact Option.noConfusion h
    | arr xs => simp only [entryRest, htx] at h; exact Option.noConfusion h
    | obj fs => simp only [entryRest, htx] at h; exact Option.noConfusion h

/-- Splitting a run: a prefix that completes without a fatal condition
keeps its outputs and the processing continues on the directory state it
produced. -/
theorem runEntries_append (tmp dest : String) (ex : List String)
    (ps qs : List (List (String × JVal))) :
    runEntries tmp dest ex (ps ++ qs) =
      (match runEntries tmp dest ex ps with
       | (os, some e) => (os, some e)
       | (os, none) =>
         (os ++ (runEntries tmp dest (stateAfter ex os) qs).1,
          (runEntries tmp dest (stateAfter ex os) qs).2)) := by
  induction ps generalizing ex with
  | nil => simp [runEntries, stateAfter]
  | cons post ps ih =>
    simp only [List.cons_append, runEntries]
    cases entryHead dest post with
    | none => rfl
    | some du =>
      obtain ⟨dir, u⟩ := du
      simp only []
      by_cases hd : dir ∈ ex
      · simp [hd]
      · simp only [hd, if_false]
        cases her : entryRest tmp dir u post with
        | none => rfl
        | some er =>
          have hdir : er.dir = dir := entryRest_dir tmp dir u post er her
          simp only [List.append_eq]
          rw [ih (dir :: ex)]
          cases hr : runEntries tmp dest (dir :: ex) ps with
          | mk os e =>
            cases e with
            | none =>
              simp only []
              rw [show stateAfter ex (er :: os) = stateAfter (er.dir :: ex) os from rfl,
                hdir]
              rfl
            | some f => simp

/-- Claim C7: the output directory of an entry is the destination root
joined with the creation date formatted YYYY-MM-DD, a hyphen, and the
lower cased uuid; and when that directory already exists the run stops
with the fatal directory collision, keeping exactly the entries already
written. -/
theorem c7_dir_name_and_collision_fatal :
    (∀ (dest : String) (post : List (String × JVal)) (u cd : String) (y m d : Nat),
      dlookup post "uuid" = some (JVal.str u) →
      dlookup post "creationDate" = some (JVal.str cd) →
      parseCreationDate cd = some (y, m, d) →
      entryHead dest post = some (dest ++ "/" ++ (fmtYMD y m d ++ "-" ++ strLower u), u)) ∧
    (∀ (tmp dest : String) (ex : List String)
      (ps qs : List (List (String × JVal))) (p : List (String × JVal))
      (os : List EntryResult) (dir u : String),
      runEntries tmp dest ex ps = (os, none) →
      entryHead dest p = some (dir, u) →
      dir ∈ stateAfter ex os →
      runEntries tmp dest ex (ps ++ p :: qs) = (os, some Fatal.dirExists)) := by
  constructor
  · intro dest post u cd y m d hu hcd hp
    simp only [entryHead, hcd, hp, hu]
  · intro tmp dest ex ps qs p os dir u hrun hhead hin
    rw [runEntries_append, hrun]
    simp only [runEntries, hhead, hin, if_pos, List.append_nil]

theorem photoStage_nil_content (tmp pd u : String) (post : List (String × JVal))
    (x : List Char × List CopyAction × List String)
    (h : photoStage tmp pd u post [] = some x) : x.1 = [] := by
  cases hph : dlookup post "photos" with
  | none =>
    simp only [photoStage, hph] at h
    rw [← Option.some.inj h]
  | some v =>
    cases v with
    | arr items =>
      cases hpl : parseAttachList (tmp ++ "/photos") items with
      | none => simp only [photoStage, hph, hpl] at h; exact Option.noConfusion h
      | some recs =>
        simp only [photoStage, hph, hpl, reSub_nil] at h
        rw [← Option.some.inj h]
    | str s => simp only [photoStage, hph] at h; exact Option.noConfusion h
    | num n => simp only [photoStage, hph] at h; exact Option.noConfusion h
    | bool b => simp only [photoStage, hph] at h; exact Option.noConfusion h
    | null => simp only [photoStage, hph] at h; exact Option.noConfusion h
    | obj fs => simp only [photoStage, hph] at h; exact Option.noConfusion h

theorem pdfStage_nil_content (tmp pd u : String) (post : List (String × JVal))
    (x : List Char × List CopyAction × List String)
    (h : pdfStage tmp pd u post [] = some x) : x.1 = [] := by
  cases hph : dlookup post "pdfAttachments" with
  | none =>
    simp only [pdfStage, hph] at h
    rw [← Option.some.inj h]
  | some v =>
    cases v with
    | arr items =>
      cases hpl : parseAttachList (tmp ++ "/pdfs") items with
      | none => simp only [pdfStage, hph, hpl] at h; exact Option.noConfusion h
      | some recs =>
        simp only [pdfStage, hph, hpl, reSub_nil] at h
        rw [← Option.some.inj h]
    | str s => simp only [pdfStage, hph] at h; exact Option.noConfusion h
    | num n => simp only [pdfStage, hph] at h; exact Option.noConfusion h
    | bool b => simp only [pdfStage, hph] at h; exact Option.noConfusion h
    | null => simp only [pdfStage, hph] at h; exact Option.noConfusion h
    | obj fs => simp only [pdfStage, hph] at h; exact Option.noConfusion h

theorem buildMetadata_date (post : List (String × JVal)) (m : List (String × JVal))
    (h : buildMetadata post = some m) : ∃ cd, dlookup m "date" = some cd := by
  have hdate : ("date" : String) ∉ delKeys := by decide
  have hdl : ("date" : String) ≠ "location" := by decide
  cases hcd : dlookup post "creationDate" with
  | none => simp only [buildMetadata, hcd] at h; exact Option.noConfusion h
  | some cd =>
    have hm2 : dlookup (delKeys.foldl (fun m k => ddel m k) (dset post "date" cd))
        "date" = some cd := by
      rw [dlookup_foldl_ddel, if_neg hdate, dlookup_dset_self]
    cases hl : dlookup (delKeys.foldl (fun m k => ddel m k) (dset post "date" cd))
        "location" with
    | none =>
      simp only [buildMetadata, hcd, hl] at h
      exact ⟨cd, (Option.some.inj h) ▸ hm2⟩
    | some v =>
      cases v with
      | obj loc =>
        cases hpn : dlookup loc "placeName" with
        | none =>
          simp only [buildMetadata, hcd, hl, hpn] at h
          exact ⟨cd, (Option.some.inj h) ▸ hm2⟩
        | some pn =>
          simp only [buildMetadata, hcd, hl, hpn] at h
          refine ⟨cd, ?_⟩
          rw [← Option.some.inj h, dlookup_dset_ne _ "location" "date" _ hdl, hm2]
      | str s => simp only [buildMetadata, hcd, hl] at h; exact Option.noConfusion h
      | num n => simp only [buildMetadata, hcd, hl] at h; exact Option.noConfusion h
      | bool b => simp only [buildMetadata, hcd, hl] at h; exact Option.noConfusion h
      | null => simp only [buildMetadata, hcd, hl] at h; exact Option.noConfusion h
      | arr xs => simp only [buildMetadata, hcd, hl] at h; exact Option.noConfusion h

/-- Claim C8: an entry whose text field is entirely absent is logged with
an error naming the entry, gets the empty string as body, and its
index.md is still produced with empty body content and non empty front
matter. -/
theorem c8_missing_text (tmp pd u : String) (post : List (String × JVal))
    (er : EntryResult) (htext : dlookup post "text" = none)
    (hrun : entryRest tmp pd u post = some er) :
    er.content = "" ∧ er.metadata ≠ [] ∧
      ("[ERROR] post without text (" ++ u ++ ")") ∈ er.logs := by
  simp only [entryRest, htext] at hrun
  cases hp : photoStage tmp pd u post "".data with
  | none => simp only [entryCore, hp] at hrun; exact Option.noConfusion hrun
  | some x1 =>
    obtain ⟨c1, cp1, lg1⟩ := x1
    have hc1 : c1 = [] := photoStage_nil_content tmp pd u post (c1, cp1, lg1) hp
    subst hc1
    simp only [entryCore, hp] at hrun
    cases hq : pdfStage tmp pd u post [] with
    | none => rw [hq] at hrun; exact Option.noConfusion hrun
    | some x2 =>
      obtain ⟨c2, cp2, lg2⟩ := x2
      have hc2 : c2 = [] := pdfStage_nil_content tmp pd u post (c2, cp2, lg2) hq
      subst hc2
      rw [hq] at hrun
      simp only [] at hrun
      cases hmd : buildMetadata post with
      | none => rw [hmd] at hrun; exact Option.noConfusion hrun
      | some md =>
        rw [hmd] at hrun
        simp only [] at hrun
        obtain ⟨cd, hcd⟩ := buildMetadata_date post md hmd
        refine ⟨?_, ?_, ?_⟩
        · rw [← Option.some.inj hrun]
        · rw [← Option.some.inj hrun]
          exact dlookup_nonempty md "date" cd hcd
        · rw [← Option.some.inj hrun]
          simp

def setDir (dir : String) (a : Attachment) : Attachment := { a with directory := dir }

def mapVals (g : Attachment → Attachment) :
    List (String × Attachment) → List (String × Attachment)
  | [] => []
  | p :: d => (p.1, g p.2) :: mapVals g d

/-- The temp independent part of a copy action: destination basename and
destination path. -/
def copyView (c : CopyAction) : String × String := (c.basename, c.dst)

def stageView (x : List Char × List CopyAction × List String) :
    List Char × List (String × String) × List String :=
  (x.1, x.2.1.map copyView, x.2.2)

/-- The temp independent part of one produced entry: directory, body,
front matter metadata, copies (basename and destination), logs. -/
def entryView (er : EntryResult) :
    String × String × List (String × JVal) × List (String × String) × List String :=
  (er.dir, er.content, er.metadata, er.copies.map copyView, er.logs)

def runView (r : List EntryResult × Option Fatal) :
    List (String × String × List (String × JVal) × List (String × String) × List String)
      × Option Fatal :=
  (r.1.map entryView, r.2)

theorem parseAttach_dir (d1 d2 : String) (v : JVal) :
    parseAttach d1 v = (parseAttach d2 v).map (setDir d1) := by
  cases v with
  | obj fs =>
    simp only [parseAttach]
    cases dlookup fs "identifier" with
    | none => rfl
    | some j =>
      cases j with
      | str i =>
        cases asStr (dlookup fs "md5") with
        | none => rfl
        | some m5 =>
          cases asStr (dlookup fs "type") with
          | none => rfl
          | some t => rfl
      | num n => rfl
      | bool b => rfl
      | null => rfl
      | arr xs => rfl
      | obj o => rfl
  | str s => rfl
  | num n => rfl
  | bool b => rfl
  | null => rfl
  | arr xs => rfl

theorem parseAttachList_dir (d1 d2 : String) (vs : List JVal) :
    parseAttachList d1 vs = (parseAttachList d2 vs).map (List.map (setDir d1)) := by
  induction vs with
  | nil => rfl
  | cons v vs ih =>
    simp only [parseAttachList, parseAttach_dir d1 d2 v, ih]
    cases parseAttach d2 v with
    | none => rfl
    | some a =>
      cases parseAttachList d2 vs with
      | none => rfl
      | some as => rfl

theorem hasKey_mapVals (g : Attachment → Attachment) (d : List (String × Attachment))
    (k : String) : hasKey (mapVals g d) k = hasKey d k := by
  induction d with
  | nil => rfl
  | cons p d ih =>
    by_cases hp : p.1 = k
    · simp [mapVals, hasKey, hp]
    · simp [mapVals, hasKey, hp, ih]

theorem replaceKey_mapVals (g : Attachment → Attachment) (d : List (String × Attachment))
    (k : String) (v : Attachment) :
    replaceKey (mapVals g d) k (g v) = mapVals g (replaceKey d k v) := by
  induction d with
  | nil => rfl
  | cons p d ih =>
    by_cases hp : p.1 = k
    · simp [mapVals, replaceKey, hp, ih]
    · simp [mapVals, replaceKey, hp, ih]

theorem mapVals_append (g : Attachment → Attachment)
    (d d' : List (String × Attachment)) :
    mapVals g (d ++ d') = mapVals g d ++ mapVals g d' := by
  induction d with
  | nil => rfl
  | cons p d ih => simp [mapVals, ih]

theorem dset_mapVals (g : Attachment → Attachment) (d : List (String × Attachment))
    (k : String) (v : Attachment) :
    dset (mapVals g d) k (g v) = mapVals g (dset d k v) := by
  unfold dset
  rw [hasKey_mapVals]
  by_cases h : hasKey d k
  · simp [h, replaceKey_mapVals]
  · simp [h, mapVals_append, mapVals]

theorem buildDict_map (dir : String) (rs : List Attachment) :
    buildDict (rs.map (setDir dir)) = mapVals (setDir dir) (buildDict rs) := by
  suffices h : ∀ acc, (rs.map (setDir dir)).foldl (fun d r => dset d r.identifier r)
      (mapVals (setDir dir) acc) =
      mapVals (setDir dir) (rs.foldl (fun d r => dset d r.identifier r) acc) by
    simpa [buildDict, mapVals] using h []
  induction rs with
  | nil => intro acc; rfl
  | cons r rs ih =>
    intro acc
    simp only [List.map_cons, List.foldl_cons]
    rw [show (setDir dir r).identifier = r.identifier from rfl,
      dset_mapVals (setDir dir) acc r.identifier r]
    exact ih (dset acc r.identifier r)

theorem attachLoop_map (dflt errLog pd dir : String) (d : List (String × Attachment)) :
    attachLoop dflt errLog pd (mapVals (setDir dir) d) =
      ⟨mapVals (setDir dir) (attachLoop dflt errLog pd d).dict,
       (attachLoop dflt errLog pd d).copies.map (fun c => ⟨dir, c.basename, c.dst⟩),
       (attachLoop dflt errLog pd d).logs⟩ := by
  induction d with
  | nil => rfl
  | cons p d ih =>
    obtain ⟨k, a⟩ := p
    obtain ⟨ad, ai, am, aty⟩ := a
    cases am with
    | none => simp [attachLoop, mapVals, setDir, ih]
    | some m => simp [attachLoop, mapVals, setDir, Attachment.ext, ih]

theorem dlookup_mapVals (g : Attachment → Attachment) (d : List (String × Attachment))
    (k : String) : dlookup (mapVals g d) k = (dlookup d k).map g := by
  induction d with
  | nil => rfl
  | cons p d ih =>
    by_cases hp : p.1 = k
    · simp [mapVals, dlookup, hp]
    · simp [mapVals, dlookup, hp, ih]

theorem photoCallback_setDir (dir : String) (d : List (String × Attachment))
    (i : List Char) :
    photoCallback (mapVals (setDir dir) d) i = photoCallback d i := by
  unfold photoCallback
  rw [dlookup_mapVals]
  cases dlookup d (String.mk i) with
  | none => rfl
  | some a =>
    obtain ⟨ad, ai, am, aty⟩ := a
    cases am with
    | none => rfl
    | some m => rfl

theorem pdfCallback_setDir (dir : String) (d : List (String × Attachment))
    (i : List Char) :
    pdfCallback (mapVals (setDir dir) d) i = pdfCallback d i := by
  unfold pdfCallback
  rw [dlookup_mapVals]
  cases dlookup d (String.mk i) with
  | none => rfl
  | some a =>
    obtain ⟨ad, ai, am, aty⟩ := a
    cases am with
    | none => rfl
    | some m => rfl

theorem go_congr (tok : List Char) (f g : List Char → Option (List Char × List String))
    (hfg : ∀ i, f i = g i) :
    ∀ (s : List Char) (skip : Nat), go tok f skip s = go tok g skip s := by
  intro s
  induction s with
  | nil => intro skip; cases skip <;> rfl
  | cons c cs ih =>
    intro skip
    cases skip with
    | succ n => simpa [go] using ih n
    | zero =>
      simp only [go]
      cases stripLit tok (c :: cs) with
      | none => rw [ih 0]
      | some r =>
        simp only []
        by_cases hie : ((takeAlnum r).1).isEmpty = true
        · simp [hie, ih 0]
        · simp only [hie, Bool.false_eq_true, if_false]
          rw [hfg ((takeAlnum r).1)]
          cases g ((takeAlnum r).1) with
          | none => rfl
          | some v =>
            obtain ⟨rep, lg⟩ := v
            rw [ih (tok.length + ((takeAlnum r).1).length - 1)]

theorem photoStage_view (tmp1 tmp2 pd u : String) (post : List (String × JVal))
    (c : List Char) :
    (photoStage tmp1 pd u post c).map stageView =
      (photoStage tmp2 pd u post c).map stageView := by
  cases hph : dlookup post "photos" with
  | none => simp [photoStage, hph]
  | some v =>
    cases v with
    | arr items =>
      simp only [photoStage, hph]
      rw [parseAttachList_dir (tmp1 ++ "/photos") (tmp2 ++ "/photos") items]
      cases hpl : parseAttachList (tmp2 ++ "/photos") items with
      | none => rfl
      | some recs =>
        simp only [Option.map_some']
        rw [buildDict_map (tmp1 ++ "/photos") recs, attachLoop_map]
        have hcb : reSub photoTok (photoCallback (mapVals (setDir (tmp1 ++ "/photos"))
            (attachLoop ".jpeg" ("[ERROR] photo without md5, etc. (" ++ u ++ ")") pd
              (buildDict recs)).dict)) c =
            reSub photoTok (photoCallback (attachLoop ".jpeg"
              ("[ERROR] photo without md5, etc. (" ++ u ++ ")") pd
              (buildDict recs)).dict) c :=
          go_congr photoTok _ _
            (photoCallback_setDir (tmp1 ++ "/photos") _) c 0
        rw [hcb]
        cases reSub photoTok (photoCallback (attachLoop ".jpeg"
            ("[ERROR] photo without md5, etc. (" ++ u ++ ")") pd
            (buildDict recs)).dict) c with
        | none => rfl
        | some p =>
          obtain ⟨c2, lgs⟩ := p
          simp [stageView, copyView, List.map_map, Function.comp]
    | str s => simp [photoStage, hph]
    | num n => simp [photoStage, hph]
    | bool b => simp [photoStage, hph]
    | null => simp [photoStage, hph]
    | obj fs => simp [photoStage, hph]

theorem pdfStage_view (tmp1 tmp2 pd u : String) (post : List (String × JVal))
    (c : List Char) :
    (pdfStage tmp1 pd u post c).map stageView =
      (pdfStage tmp2 pd u post c).map stageView := by
  cases hph : dlookup post "pdfAttachments" with
  | none => simp [pdfStage, hph]
  | some v =>
    cases v with
    | arr items =>
      simp only [pdfStage, hph]
      rw [parseAttachList_dir (tmp1 ++ "/pdfs") (tmp2 ++ "/pdfs") items]
      cases hpl : parseAttachList (tmp2 ++ "/pdfs") items with
      | none => rfl
      | some recs =>
        simp only [Option.map_some']
        rw [buildDict_map (tmp1 ++ "/pdfs") recs, attachLoop_map]
        have hcb : reSub pdfTok (pdfCallback (mapVals (setDir (tmp1 ++ "/pdfs"))
            (attachLoop ".pdf" ("[ERROR] pdf without md5, etc. (" ++ u ++ ")") pd
              (buildDict recs)).dict)) c =
            reSub pdfTok (pdfCallback (attachLoop ".pdf"
              ("[ERROR] pdf without md5, etc. (" ++ u ++ ")") pd
              (buildDict recs)).dict) c :=
          go_congr pdfTok _ _
            (pdfCallback_setDir (tmp1 ++ "/pdfs") _) c 0
        rw [hcb]
        cases reSub pdfTok (pdfCallback (attachLoop ".pdf"
            ("[ERROR] pdf without md5, etc. (" ++ u ++ ")") pd
            (buildDict recs)).dict) c with
        | none => rfl
        | some p =>
          obtain ⟨c2, lgs⟩ := p
          simp [stageView, copyView, List.map_map, Function.comp]
    | str s => simp [pdfStage, hph]
    | num n => simp [pdfStage, hph]
    | bool b => simp [pdfStage, hph]
    | null => simp [pdfStage, hph]
    | obj fs => simp [pdfStage, hph]

theorem entryCore_view (tmp1 tmp2 pd u : String) (post : List (String × JVal))
    (c0 : String) (lg0 : List String) :
    (entryCore tmp1 pd u post c0 lg0).map entryView =
      (entryCore tmp2 pd u post c0 lg0).map entryView := by
  have hps := photoStage_view tmp1 tmp2 pd u post c0.data
  cases hp2 : photoStage tmp2 pd u post c0.data with
  | none =>
    rw [hp2] at hps
    have hp1 : photoStage tmp1 pd u post c0.data = none := by
      simpa using hps
    simp [entryCore, hp1, hp2]
  | some x2 =>
    rw [hp2] at hps
    simp only [Option.map_some'] at hps
    obtain ⟨x1, hp1, hsv⟩ := Option.map_eq_some'.mp hps
    obtain ⟨c1a, cp1a, lg1a⟩ := x1
    obtain ⟨c1b, cp1b, lg1b⟩ := x2
    simp only [stageView, Prod.mk.injEq] at hsv
    obtain ⟨hc1, hcp1, hlg1⟩ := hsv
    subst hc1
    have hqs := pdfStage_view tmp1 tmp2 pd u post c1a
    cases hq2 : pdfStage tmp2 pd u post c1a with
    | none =>
      rw [hq2] at hqs
      have hq1 : pdfStage tmp1 pd u post c1a = none := by
        simpa using hqs
      simp [entryCore, hp1, hp2, hq1, hq2]
    | some y2 =>
      rw [hq2] at hqs
      simp only [Option.map_some'] at hqs
      obtain ⟨y1, hq1, hsw⟩ := Option.map_eq_some'.mp hqs
      obtain ⟨c2a, cp2a, lg2a⟩ := y1
      obtain ⟨c2b, cp2b, lg2b⟩ := y2
      simp only [stageView, Prod.mk.injEq] at hsw
      obtain ⟨hc2, hcp2, hlg2⟩ := hsw
      subst hc2
      cases hmd : buildMetadata post with
      | none => simp [entryCore, hp1, hp2, hq1, hq2, hmd]
      | some md =>
        simp [entryCore, hp1, hp2, hq1, hq2, hmd, entryView,
          List.map_append, hcp1, hcp2, hlg1, hlg2]

theorem entryRest_view (tmp1 tmp2 pd u : String) (post : List (String × JVal)) :
    (entryRest tmp1 pd u post).map entryView =
      (entryRest tmp2 pd u post).map entryView := by
  cases htx : dlookup post "text" with
  | none =>
    simp only [entryRest, htx]
    exact entryCore_view tmp1 tmp2 pd u post _ _
  | some v =>
    cases v with
    | str t =>
      simp only [entryRest, htx]
      exact entryCore_view tmp1 tmp2 pd u post _ _
    | num n => simp [entryRest, htx]
    | bool b => simp [entryRest, htx]
    | null => simp [entryRest, htx]
    | arr xs => simp [entryRest, htx]
    | obj fs => simp [entryRest, htx]

/-- Claim C9: the conversion is deterministic.  Two runs on the same
archive with the same arguments differ only in the freshly chosen
staging directory; their directory names, index.md payloads (front
matter and body), attachment basenames and destinations, log lines and
final status are identical. -/
theorem c9_deterministic (tmp1 tmp2 dest : String) (ex : List String)
    (posts : List (List (String × JVal))) :
    runView (runEntries tmp1 dest ex posts) = runView (runEntries tmp2 dest ex posts) := by
  induction posts generalizing ex with
  | nil => rfl
  | cons post ps ih =>
    simp only [runEntries]
    cases entryHead dest post with
    | none => rfl
    | some du =>
      obtain ⟨dir, u⟩ := du
      simp only []
      by_cases hd : dir ∈ ex
      · simp [hd]
      · simp only [hd, if_false]
        have hv := entryRest_view tmp1 tmp2 dir u post
        cases h2 : entryRest tmp2 dir u post with
        | none =>
          rw [h2] at hv
          have h1 : entryRest tmp1 dir u post = none := by
            simpa using hv
          rw [h1]
        | some er2 =>
          rw [h2] at hv
          simp only [Option.map_some'] at hv
          obtain ⟨er1, h1, hev⟩ := Option.map_eq_some'.mp hv
          rw [h1]
          have hik := ih (dir :: ex)
          simp only [runView, Prod.mk.injEq] at hik ⊢
          simp only [List.map_cons, hev, hik.1, hik.2, and_self]

/-! ## Claim C1 and concrete inputs for the remaining claims -/

/-- Claim C1 (code bug): when the --journal option is given as the empty
string the default document filename Journal.json is used and output
goes directly under the destination, and a non empty journal name
selects name.json and nests output under destination/name, exactly as
claimed; but when the option is omitted entirely, options.journal is
None, the comparison None != "" takes the named journal branch, and
None + ".json" raises an uncaught TypeError (modelled none), instead of
the claimed default behaviour. -/
theorem c1_journal_omitted_crashes :
    resolveJournal "/dest" none = none ∧
    resolveJournal "/dest" (some "") = some ("Journal.json", "/dest") ∧
    resolveJournal "/dest" (some "Work") = some ("Work.json", "/dest/Work") :=
  ⟨rfl, rfl, rfl⟩

def photoDictW : List (String × Attachment) :=
  [("photo1", ⟨"/tmp/photos", "photo1", some "deadbeef", some "jpg"⟩)]

def pdfDictW : List (String × Attachment) :=
  [("q1", ⟨"/tmp/pdfs", "q1", some "cafef00d", none⟩)]

def c2post : List (String × JVal) :=
  [("uuid", JVal.str "U1"), ("creationDate", JVal.str "2023-05-01T10:00:00Z"),
   ("text", JVal.str "x dayone-moment://bbb"),
   ("photos", JVal.arr [JVal.obj [("identifier", JVal.str "aaa"),
     ("md5", JVal.str "m1")]])]

/-- Claim C2 counterexample: an entry with a photos list and a body whose
photo placeholder identifier (bbb) matches no record of the photo
mapping (which holds only aaa).  The photo replacement callback is
invoked on bbb all the same and its unguarded lookup raises KeyError:
the substitution fails and the failure escapes the per entry pipeline,
refuting the claim that the callback is only invoked on identifiers
present in the mapping. -/
theorem c2_unmatched_photo_crashes_cex :
    reSub photoTok (photoCallback [("aaa", ⟨"/tmp/photos", "aaa", some "m1", none⟩)])
      ("x dayone-moment://bbb".data) = none ∧
    entryRest "/tmp" "/d/e" "U1" c2post = none :=
  ⟨rfl, rfl⟩

/-- Witness for the amended claim C2 at a concrete body and mapping. -/
theorem c2_photo_substitution_total_when_bound_witness :
    (reSub photoTok (photoCallback photoDictW)
      (assemble photoTok "x: ".data [("photo1".data, [])])).isSome = true :=
  c2_photo_substitution_total_when_bound photoDictW "x: ".data
    [("photo1".data, [])] (by rfl) (by rfl) (by rfl)

/-- Witness for claim C4: the body Hello dayone-moment://photo1 over with
a photo record (md5 deadbeef, type jpg) becomes Hello deadbeef.jpg over. -/
theorem c4_photo_placeholder_replaced_witness :
    reSub photoTok (photoCallback photoDictW)
      (assemble photoTok "Hello ".data [("photo1".data, " over".data)]) =
      some ("Hello deadbeef.jpg over".data, []) := by
  have h := c4_photo_placeholder_replaced photoDictW "Hello ".data
    [("photo1".data, " over".data)] (by rfl) (by rfl) (by rfl)
  exact h.trans (by rfl)

/-- Witness for claim C5: See dayone-moment:/pdfAttachment/p1 end with a
PDF mapping holding only q1 becomes See missing_pdf end plus the log
line naming p1. -/
theorem c5_missing_pdf_sentinel_witness :
    reSub pdfTok (pdfCallback pdfDictW)
      ("See ".data ++ (pdfTok ++ ("p1".data ++ " end".data))) =
      some ("See ".data ++ ("missing_pdf".data ++ " end".data),
        ["[ERROR] missing pdf (pdf identifier: p1)"]) := by
  obtain ⟨out, logs, h1, h2⟩ := c5_missing_pdf_sentinel pdfDictW "See ".data "p1".data
    " end".data (by rfl) (by rfl) (by rfl) (by rfl) (by rfl)
  have h1e : reSub pdfTok (pdfCallback pdfDictW) " end".data = some (" end".data, []) := rfl
  have hpe : (" end".data, ([] : List String)) = (out, logs) :=
    Option.some.inj (h1e.symm.trans h1)
  have ho : out = " end".data := (congrArg Prod.fst hpe).symm
  have hlg : logs = [] := (congrArg Prod.snd hpe).symm
  subst ho
  subst hlg
  exact h2.trans (by rfl)

/-- Witness for the amended claim C6 at the concrete entry with a
location record. -/
theorem c6_metadata_amended_witness :
    ∃ m, buildMetadata c6post = some m ∧
      dlookup m "date" = some (JVal.str "2023-05-01T10:00:00Z") := by
  obtain ⟨m, h1, h2, -⟩ := c6_metadata_amended c6post (JVal.str "2023-05-01T10:00:00Z")
    rfl (by trivial)
  exact ⟨m, h1, h2⟩

def c7post : List (String × JVal) :=
  [("uuid", JVal.str "ABC123"), ("creationDate", JVal.str "2023-05-01T10:00:00Z"),
   ("text", JVal.str "hi")]

def c7entry : EntryResult :=
  ⟨"/d/2023-05-01-abc123", [], "hi",
   [("uuid", JVal.str "ABC123"), ("date", JVal.str "2023-05-01T10:00:00Z")], []⟩

/-- Witness for claim C7: the concrete entry gets directory
/d/2023-05-01-abc123, and running the same entry twice into the same
destination stops at the second one with the directory collision,
keeping the first output. -/
theorem c7_dir_name_and_collision_fatal_witness :
    entryHead "/d" c7post = some ("/d/2023-05-01-abc123", "ABC123") ∧
    runEntries "/t" "/d" [] [c7post, c7post] = ([c7entry], some Fatal.dirExists) := by
  constructor
  · exact c7_dir_name_and_collision_fatal.1 "/d" c7post "ABC123"
      "2023-05-01T10:00:00Z" 2023 5 1 rfl rfl rfl
  · exact c7_dir_name_and_collision_fatal.2 "/t" "/d" [] [c7post] [] c7post
      [c7entry] "/d/2023-05-01-abc123" "ABC123" (by rfl) (by rfl)
      (by simp [stateAfter, c7entry])

def c8post : List (String × JVal) :=
  [("uuid", JVal.str "U8"), ("creationDate", JVal.str "2024-01-02T03:04:05Z")]

def c8entry : EntryResult :=
  ⟨"/d/e", [], "",
   [("uuid", JVal.str "U8"), ("date", JVal.str "2024-01-02T03:04:05Z")],
   ["[ERROR] post without text (U8)"]⟩

/-- Witness for claim C8 at a concrete entry without a text field. -/
theorem c8_missing_text_witness :
    c8entry.content = "" ∧ c8entry.metadata ≠ [] ∧
      ("[ERROR] post without text (" ++ "U8" ++ ")") ∈ c8entry.logs :=
  c8_missing_text "/t" "/d/e" "U8" c8post c8entry rfl rfl

end DayOne

